import Mathlib

/-!
Verification of the guideline-resolution and diff-annotation pipeline of the
jacquez repository.

The TypeScript/JavaScript sources are shallowly embedded as pure Lean
functions.  JavaScript strings are modelled through their character lists
(`String.data`), machine numbers as `Nat`/`Int`, the mutable visited set and
the process-wide cache as explicit state threaded through the functions, and
every network collaborator (GitHub contents API, raw-URL fetch, AI judgment)
as a function-valued environment supplied by the caller.  Calls to a
collaborator are recorded in explicit logs so that call-count properties can
be stated.
-/

/-! ## JavaScript string semantics on character lists -/

/-- JS `String.prototype.includes` on character lists: `pat` occurs as a
contiguous substring (the empty pattern always occurs). -/
def listContains (pat : List Char) : List Char → Bool
  | [] => pat.isEmpty
  | c :: rest => pat.isPrefixOf (c :: rest) || listContains pat rest

/-- JS `String.prototype.includes`. -/
def jsIncludes (s pat : String) : Bool :=
  listContains pat.data s.data

/-- JS `String.prototype.replace(pat, rep)` with a string pattern: only the
first occurrence is replaced; the string is unchanged when the pattern does
not occur. -/
def replaceFirstAux (pat rep : List Char) : List Char → List Char
  | [] => if pat.isEmpty then rep else []
  | c :: rest =>
    if pat.isPrefixOf (c :: rest) then rep ++ (c :: rest).drop pat.length
    else c :: replaceFirstAux pat rep rest

/-- JS `String.prototype.replace` with string pattern and replacement. -/
def jsReplaceFirst (s pat rep : String) : String :=
  String.mk (replaceFirstAux pat.data rep.data s.data)

/-- Worker for `splitLines`: `acc` holds the current line reversed. -/
def splitLinesGo : List Char → List Char → List (List Char)
  | [], acc => [acc.reverse]
  | c :: rest, acc =>
    if c = '\n' then acc.reverse :: splitLinesGo rest []
    else splitLinesGo rest (c :: acc)

/-- JS `patch.split("\n")`: the empty string yields one empty line. -/
def splitLines (l : List Char) : List (List Char) :=
  splitLinesGo l []

/-- The JS whitespace class used by `String.prototype.trim` (ASCII
whitespace, NBSP, the Unicode space separators, line/paragraph separators,
and the BOM). -/
def jsWhitespace (c : Char) : Bool :=
  decide (c.toNat ∈ ([9, 10, 11, 12, 13, 32, 160, 5760, 8232, 8233,
      8239, 8287, 12288, 65279] : List Nat) ∨
    (8192 ≤ c.toNat ∧ c.toNat ≤ 8202))

/-- JS `String.prototype.trim`. -/
def jsTrim (s : String) : String :=
  String.mk (((s.data.dropWhile jsWhitespace).reverse.dropWhile jsWhitespace).reverse)

/-- JS `content.toLowerCase()` as a character list.  `Char.toLower` lowers
the ASCII range, which is all the embedding needs to decide whether the
ASCII keyword `"aside"` occurs. -/
def toLowerData (s : String) : List Char :=
  s.data.map Char.toLower

/-- `containsAsideKeyword` from `app/api/webhook/route.ts`:
`content.toLowerCase().includes("aside")`.  The same expression appears
inline in `analyzePRDescription` of `src/lib/pr-analyzer.ts`. -/
def containsAsideKeyword (content : String) : Bool :=
  listContains "aside".data (toLowerData content)

/-! ## The diff coordinate mapper

`parseDiffForChangedLines` exists twice in the repository: in
`src/lib/pr-analyzer.ts` (TypeScript) and in `scripts/jacquez-pr-check.mjs`
(JavaScript).  Both are embedded. -/

/-- JS `parseInt` on a nonempty digit string. -/
def digitsToNat (ds : List Char) : Nat :=
  ds.foldl (fun acc c => acc * 10 + (c.toNat - '0'.toNat)) 0

/-- One attempt of the TypeScript hunk-header regex
`/@@ -\d+(?:,\d+)? \+(\d+)(?:,\d+)? @@/` anchored at the head of `l`,
returning the captured group (the new-file start) on success.  The regex is
deterministic: each `\d+` is delimited by a following non-digit and the
optional `,\d+` groups cannot backtrack into a successful match. -/
def matchHunkAt (l : List Char) : Option Nat :=
  match l with
  | '@' :: '@' :: ' ' :: '-' :: r0 =>
    let d1 := r0.takeWhile Char.isDigit
    let r1 := r0.dropWhile Char.isDigit
    if d1.isEmpty then none
    else
      let r2 : Option (List Char) :=
        match r1 with
        | ',' :: rr =>
          let d2 := rr.takeWhile Char.isDigit
          if d2.isEmpty then none else some (rr.dropWhile Char.isDigit)
        | _ => some r1
      match r2 with
      | none => none
      | some rs =>
        match rs with
        | ' ' :: '+' :: r3 =>
          let d3 := r3.takeWhile Char.isDigit
          let r4 := r3.dropWhile Char.isDigit
          if d3.isEmpty then none
          else
            let r5 : Option (List Char) :=
              match r4 with
              | ',' :: rr =>
                let d4 := rr.takeWhile Char.isDigit
                if d4.isEmpty then none else some (rr.dropWhile Char.isDigit)
              | _ => some r4
            match r5 with
            | some (' ' :: '@' :: '@' :: _) => some (digitsToNat d3)
            | _ => none
        | _ => none
  | _ => none

/-- JS `line.match(/@@ -\d+(?:,\d+)? \+(\d+)(?:,\d+)? @@/)`: the regex is
tried at every start position, leftmost match wins. -/
def findHunkNum : List Char → Option Nat
  | [] => none
  | c :: rest =>
    match matchHunkAt (c :: rest) with
    | some n => some n
    | none => findHunkNum rest

/-- JS `line.match(/\+(\d+)/)` from `scripts/jacquez-pr-check.mjs`: the
first `+` that is immediately followed by at least one digit wins. -/
def findPlusNum : List Char → Option Nat
  | [] => none
  | c :: rest =>
    if c = '+' then
      let ds := rest.takeWhile Char.isDigit
      if ds.isEmpty then findPlusNum rest else some (digitsToNat ds)
    else findPlusNum rest

/-- One record of the diff coordinate mapper: the retained line text (the
leading `+` stripped), its diff position, and its new-file line number.
`lineNumber` is an `Int` because a hunk header advertising `+0` resets the
JS counter to `-1`. -/
structure DiffLine where
  line : String
  position : Nat
  lineNumber : Int
deriving DecidableEq, Repr

/-- Loop of `parseDiffForChangedLines` from `src/lib/pr-analyzer.ts`:
a `@@` line updates the new-file counter on a regex match and is skipped
(`continue`) before the position counter is incremented; every other line
increments the position; `+` lines (but not `+++`) are emitted after
incrementing the new-file counter; lines not starting `-` increment the
new-file counter. -/
def parseGo : List (List Char) → Nat → Int → List DiffLine
  | [], _, _ => []
  | line :: rest, position, newLineNumber =>
    if "@@".data.isPrefixOf line then
      match findHunkNum line with
      | some c => parseGo rest position ((c : Int) - 1)
      | none => parseGo rest position newLineNumber
    else
      if "+".data.isPrefixOf line && !("+++".data.isPrefixOf line) then
        ⟨String.mk (line.drop 1), position + 1, newLineNumber + 1⟩ ::
          parseGo rest (position + 1) (newLineNumber + 1)
      else if !("-".data.isPrefixOf line) then
        parseGo rest (position + 1) (newLineNumber + 1)
      else
        parseGo rest (position + 1) newLineNumber

/-- `parseDiffForChangedLines` from `src/lib/pr-analyzer.ts`. -/
def parseDiffForChangedLines (patch : String) : List DiffLine :=
  parseGo (splitLines patch.data) 0 0

/-- Loop of `parseDiffForChangedLines` from `scripts/jacquez-pr-check.mjs`:
here the position counter is incremented after every line including `@@`
headers, an emitted record stores the counter value before that increment,
and the new-file counter advances only on `+` lines and on lines starting
with a space. -/
def parseGoMjs : List (List Char) → Nat → Int → List DiffLine
  | [], _, _ => []
  | line :: rest, position, lineNumber =>
    if "@@".data.isPrefixOf line then
      match findPlusNum line with
      | some c => parseGoMjs rest (position + 1) ((c : Int) - 1)
      | none => parseGoMjs rest (position + 1) lineNumber
    else if "+".data.isPrefixOf line && !("+++".data.isPrefixOf line) then
      ⟨String.mk (line.drop 1), position, lineNumber + 1⟩ ::
        parseGoMjs rest (position + 1) (lineNumber + 1)
    else if " ".data.isPrefixOf line then
      parseGoMjs rest (position + 1) (lineNumber + 1)
    else
      parseGoMjs rest (position + 1) lineNumber

/-- `parseDiffForChangedLines` from `scripts/jacquez-pr-check.mjs`,
including its `if (!patch) return []` guard. -/
def parseDiffForChangedLinesMjs (patch : String) : List DiffLine :=
  if patch.data.isEmpty then [] else parseGoMjs (splitLines patch.data) 0 0

/-! ## The violation aggregator (`src/lib/pr-analyzer.ts`)

The AI text-judgment collaborator is opaque: its parsed outputs are supplied
as inputs (`DescJudgment` for the description-level call, `RawJudgment`
lists for the per-file calls).  The error branches of the source (AI call
failure, JSON parse failure) surface as particular values of these inputs
(`comment_needed := false` defaults, empty judgment lists), so quantifying
over all inputs covers them. -/

/-- Violation severity, `'error' | 'warning'` in the source. -/
inductive Severity where
  | error
  | warning
deriving DecidableEq, Repr

/-- One entry of `AnalysisResult.details`.  `line` is an `Int` because the
`lineNumber || position` fallback can surface the raw counters. -/
structure Violation where
  file : String
  line : Int
  message : String
  severity : Severity
deriving DecidableEq, Repr

/-- The terminal artifact of `analyzePullRequest`. -/
structure AnalysisResult where
  violationsFound : Bool
  violationCount : Nat
  summary : String
  details : List Violation
deriving DecidableEq, Repr

/-- Parsed output of the description-level judgment call
(`{ comment_needed, comment, reasoning }`). -/
structure DescJudgment where
  comment_needed : Bool
  comment : String
  reasoning : String
deriving DecidableEq, Repr

/-- Accumulator of `analyzePRCode`: a running count and the violation
details collected so far. -/
structure CodeResult where
  violationCount : Nat
  details : List Violation
deriving DecidableEq, Repr

/-- One element of the PR file listing: its name and its (possibly absent)
unified-diff patch. -/
structure PRFile where
  filename : String
  patch : Option String
deriving DecidableEq, Repr

/-- One element of the JSON array returned by the per-file judgment call:
`{ position, comment }`, each field possibly missing or malformed.
`position` is an `Int` so that negative indices (which JS array indexing
sends to `undefined`) are representable; an absent `position` behaves the
same as an out-of-range one. -/
structure RawJudgment where
  position : Int
  comment : Option String
deriving DecidableEq, Repr

/-- One element of the list returned by `analyzeFileChanges`:
`{ position?, lineNumber?, comment? }` after mapping the raw judgment
through the changed-lines table. -/
structure FileJudgment where
  position : Option Nat
  lineNumber : Option Int
  comment : Option String
deriving DecidableEq, Repr

/-- JS array indexing `changedLines[i]` with an arbitrary numeric index:
negative and too-large indices give `undefined`. -/
def idxAt (l : List DiffLine) (i : Int) : Option DiffLine :=
  if i < 0 then none else l.get? i.toNat

/-- JS truthiness of `violation.comment`: a present, non-empty string. -/
def truthyS : Option String → Bool
  | some s => !(s == "")
  | none => false

/-- JS `violation.lineNumber || violation.position`: the line number unless
it is absent or `0` (falsy), in which case the position is used; `0` when
both are absent. -/
def jsOrLine (lineNumber : Option Int) (position : Option Nat) : Int :=
  match lineNumber with
  | some ln =>
    if ln = 0 then (match position with | some p => (p : Int) | none => 0) else ln
  | none => match position with | some p => (p : Int) | none => 0

/-- `analyzeFileChanges` from `src/lib/pr-analyzer.ts`, with the AI call and
JSON parse abstracted into the `raw` judgment list: each judgment is mapped
through `changedLines[judgment.position]` and judgments whose mapped
position is `undefined` are filtered out. -/
def analyzeFileChanges (changedLines : List DiffLine) (raw : List RawJudgment) :
    List FileJudgment :=
  if changedLines.length = 0 then []
  else
    ((raw.map fun v =>
        ({ position := (idxAt changedLines v.position).map DiffLine.position,
           lineNumber := (idxAt changedLines v.position).map DiffLine.lineNumber,
           comment := v.comment } : FileJudgment))).filter
      fun fj => fj.position.isSome

/-- Body of the `for (const violation of fileAnalysis)` loop of
`analyzePRCode`: a judgment with a truthy comment and a defined position
increments the count and appends a severity-`error` violation. -/
def codeViolationStep (filename : String) (res : CodeResult)
    (violation : FileJudgment) : CodeResult :=
  if truthyS violation.comment && violation.position.isSome then
    { violationCount := res.violationCount + 1,
      details := res.details ++
        [{ file := filename,
           line := jsOrLine violation.lineNumber violation.position,
           message := violation.comment.getD "",
           severity := Severity.error }] }
  else res

/-- Body of the `for (const file of filesResponse.data)` loop of
`analyzePRCode`: files without a (truthy) patch or without changed lines
are skipped, otherwise the per-file judgments are folded in. -/
def codeFileStep (res : CodeResult) (entry : PRFile × List RawJudgment) :
    CodeResult :=
  match entry.1.patch with
  | none => res
  | some patch =>
    if patch = "" then res
    else
      let changedLines := parseDiffForChangedLines patch
      if changedLines.length = 0 then res
      else (analyzeFileChanges changedLines entry.2).foldl
        (codeViolationStep entry.1.filename) res

/-- `analyzePRCode` from `src/lib/pr-analyzer.ts`: the PR file listing is
supplied together with the per-file judgment outputs; a fetch failure
surfaces as the empty list. -/
def analyzePRCode (files : List (PRFile × List RawJudgment)) : CodeResult :=
  files.foldl codeFileStep { violationCount := 0, details := [] }

/-- Outcome of `analyzePRDescription`: the judgment it returns together with
whether the AI collaborator was called at all. -/
structure DescOutcome where
  result : DescJudgment
  aiCalled : Bool
deriving DecidableEq, Repr

/-- `analyzePRDescription` from `src/lib/pr-analyzer.ts`: a blank body
short-circuits to a fixed violation, a body containing `aside` (case
insensitive) short-circuits to no violation, otherwise the AI judgment
`judge` is returned.  The error branch of the AI call is one instance of
`judge`. -/
def analyzePRDescription (judge : DescJudgment) (prBody : String) : DescOutcome :=
  if jsTrim prBody = "" then
    ⟨⟨true,
      "This PR is missing a description. Please add a description explaining what changes were made and why.",
      "Empty PR description"⟩, false⟩
  else if containsAsideKeyword prBody then
    ⟨⟨false, "", "Skipped due to aside keyword"⟩, false⟩
  else ⟨judge, true⟩

/-- `analyzePullRequest` from `src/lib/pr-analyzer.ts`, with the
description judgment and the per-file code analysis as inputs, mirroring
the mutation order of the source. -/
def analyzePullRequest (desc : DescJudgment) (code : CodeResult) : AnalysisResult :=
  let r0 : AnalysisResult :=
    { violationsFound := false, violationCount := 0, summary := "", details := [] }
  let r1 :=
    if desc.comment_needed then
      { r0 with
        violationsFound := true
        violationCount := r0.violationCount + 1
        details := r0.details ++
          [{ file := "PR Description", line := 0, message := desc.comment,
             severity := Severity.error }] }
    else r0
  let r2 := { r1 with violationCount := r1.violationCount + code.violationCount }
  let r3 :=
    if 0 < code.violationCount then
      { r2 with violationsFound := true, details := r2.details ++ code.details }
    else r2
  { r3 with summary :=
      if r3.violationsFound then
        "Found " ++ toString r3.violationCount ++ " violation(s) in this PR"
      else "No contributing guideline violations found" }

/-! ## The check-run reporter (`src/lib/check-run.ts`) -/

/-- One inline check-run annotation as posted by `createCheckRun`. -/
structure Annot where
  path : String
  start_line : Int
  end_line : Int
  annotation_level : String
  message : String
  title : String
deriving DecidableEq, Repr

/-- The filter of `createCheckRun`:
`detail.line > 0 && detail.file !== 'PR Description'`. -/
def checkRunFilter (d : Violation) : Bool :=
  decide (0 < d.line) && !(d.file == "PR Description")

/-- The per-violation mapping of `createCheckRun`. -/
def checkRunAnnot (d : Violation) : Annot :=
  { path := d.file, start_line := d.line, end_line := d.line,
    annotation_level := if d.severity = Severity.error then "failure" else "warning",
    message := d.message, title := "Contributing Guideline Violation" }

/-- The `annotations` array built by `createCheckRun` before the cap. -/
def createCheckRunAnnots (res : AnalysisResult) : List Annot :=
  (res.details.filter checkRunFilter).map checkRunAnnot

/-- The annotation list actually posted: `annotations.slice(0, 50)`. -/
def createCheckRunPosted (res : AnalysisResult) : List Annot :=
  (createCheckRunAnnots res).take 50

/-- Proof helper: the optional violation contributed by one file judgment
in the `analyzePRCode` loop; `codeViolationStep` appends exactly this. -/
def codePush (filename : String) (violation : FileJudgment) : Option Violation :=
  if truthyS violation.comment && violation.position.isSome then
    some { file := filename,
           line := jsOrLine violation.lineNumber violation.position,
           message := violation.comment.getD "",
           severity := Severity.error }
  else none

/-- Modelled from the amended claim C7: the per-file aggregation keeps
exactly the judgments whose position is a valid index into the changed-lines
table and whose comment is a present non-empty string; each kept judgment
becomes a severity-`error` violation whose line is the indexed record's
new-file line number, falling back to the record's diff position when that
line number is `0`. -/
def c7Spec (filename : String) (changedLines : List DiffLine)
    (raw : List RawJudgment) : List Violation :=
  raw.filterMap fun v =>
    match idxAt changedLines v.position, v.comment with
    | some d, some s =>
      if s = "" then none
      else some { file := filename,
                  line := if d.lineNumber = 0 then (d.position : Int) else d.lineNumber,
                  message := s, severity := Severity.error }
    | _, _ => none

/-! ## The guideline cache

Both resolvers keep a process-wide `Map<string, {content, timestamp}>`.
It is modelled as an association list in which `set` removes any previous
binding, so each key is bound at most once. -/

/-- One cache entry: aggregated guideline text and its store time. -/
structure CacheEntry where
  content : String
  timestamp : Nat
deriving DecidableEq, Repr

/-- The process-wide guideline cache. -/
abbrev Cache := List (String × CacheEntry)

/-- JS `cache.get(k)` / `cache.has(k)`. -/
def cacheLookup (cache : Cache) (k : String) : Option CacheEntry :=
  match cache.find? (fun p => p.1 == k) with
  | some p => some p.2
  | none => none

/-- JS `cache.delete(k)`. -/
def cacheDelete (cache : Cache) (k : String) : Cache :=
  cache.filter (fun p => !(p.1 == k))

/-- JS `cache.set(k, e)`: the new binding replaces any old one. -/
def cacheSet (cache : Cache) (k : String) (e : CacheEntry) : Cache :=
  (k, e) :: cacheDelete cache k

namespace Contributing

/-! Embedding of `src/lib/contributing.ts`: the non-recursive guideline
loader used by the GitHub-action entry point.  The `octokit` contents API
is the environment; `now` is the injectable clock standing for the two
`Date.now()` reads; the returned `calls` list records, in order, the paths
for which the contents collaborator was invoked. -/

/-- The contents collaborator: decoded file content by path, `none` for a
failed request or a falsy `content` field. -/
structure Env where
  contents : String → Option String

/-- `const CACHE_TIMEOUT = 300000` from `src/lib/contributing.ts`. -/
def CACHE_TIMEOUT : Nat := 300000

/-- The candidate path list `altPaths`. -/
def altPaths : List String :=
  ["CONTRIBUTING.md", "contributing.md", ".github/CONTRIBUTING.md",
   "docs/CONTRIBUTING.md"]

/-- Result of one load: the content (or `null`), the cache afterwards, and
the contents-API calls made. -/
structure FetchResult where
  content : Option String
  cache : Cache
  calls : List String
deriving DecidableEq, Repr

/-- The `for (const path of altPaths)` loop of `loadContributingGuidelines`
in `src/lib/contributing.ts`: each path is requested in turn; the first
truthy content is cached under `cacheKey` and returned. -/
def loadPaths (env : Env) (cache : Cache) (now : Nat) (cacheKey : String) :
    List String → List String → FetchResult
  | [], calls => ⟨none, cache, calls⟩
  | p :: rest, calls =>
    match env.contents p with
    | some c =>
      if c = "" then loadPaths env cache now cacheKey rest (calls ++ [p])
      else ⟨some c, cacheSet cache cacheKey ⟨c, now⟩, calls ++ [p]⟩
    | none => loadPaths env cache now cacheKey rest (calls ++ [p])

/-- `loadContributingGuidelines` from `src/lib/contributing.ts`: a cache
entry younger than `CACHE_TIMEOUT` is returned without touching the
collaborator; an older entry is deleted and the path loop runs. -/
def loadContributingGuidelines (env : Env) (cache : Cache) (now : Nat)
    (owner repo : String) : FetchResult :=
  let cacheKey := owner ++ "/" ++ repo
  match cacheLookup cache cacheKey with
  | some cached =>
    if now - cached.timestamp < CACHE_TIMEOUT then ⟨some cached.content, cache, []⟩
    else loadPaths env (cacheDelete cache cacheKey) now cacheKey altPaths []
  | none => loadPaths env cache now cacheKey altPaths []

end Contributing

namespace Route

/-! Embedding of the guideline resolver of `app/api/webhook/route.ts`:
markdown-link extraction, GitHub URL resolution, bounded recursive link
expansion with a shared visited set, and the cached loader. -/

/-- One markdown link `[text](url)`. -/
structure MdLink where
  text : String
  url : String
deriving DecidableEq, Repr

/-- Split a character list at the first occurrence of `target`, returning
the (target-free) part before it and the part after it. -/
def splitAtChar (target : Char) : List Char → Option (List Char × List Char)
  | [] => none
  | c :: rest =>
    if c = target then some ([], rest)
    else
      match splitAtChar target rest with
      | some (before, after) => some (c :: before, after)
      | none => none

/-- One attempt of the link regex `/\[([^\]]+)\]\(([^)]+)\)/` at a position
whose `[` has already been consumed: a nonempty run up to the first `]`,
then `(`, then a nonempty run up to the first `)`.  Returns the link and
the remainder after the match.  Because the character classes exclude their
closing delimiter the regex cannot backtrack, so this is exact. -/
def tryMatchLink (l : List Char) : Option (MdLink × List Char) :=
  match splitAtChar ']' l with
  | none => none
  | some (text, r1) =>
    if text.isEmpty then none
    else
      match r1 with
      | '(' :: r2 =>
        match splitAtChar ')' r2 with
        | none => none
        | some (url, r3) =>
          if url.isEmpty then none
          else some (⟨String.mk text, String.mk url⟩, r3)
      | _ => none

/-- Scanner of `extractMarkdownLinks`: global regex matching tries each
start position in order and resumes after each match.  `fuel` starts at the
list length; every step consumes at least one character (a successful
`tryMatchLink` consumes at least four), so the fuel never runs out on the
initial call. -/
def extractLinksGo : Nat → List Char → List MdLink
  | 0, _ => []
  | _, [] => []
  | fuel + 1, c :: rest =>
    if c = '[' then
      match tryMatchLink rest with
      | some (lk, r) => lk :: extractLinksGo fuel r
      | none => extractLinksGo fuel rest
    else extractLinksGo fuel rest

/-- `extractMarkdownLinks` from `app/api/webhook/route.ts`. -/
def extractMarkdownLinks (content : String) : List MdLink :=
  extractLinksGo content.data.length content.data

/-- `resolveGitHubUrl` from `app/api/webhook/route.ts`.  Note that the
GitHub test is substring containment of `"github.com"`, of the owner and of
the repo, that only the first occurrences of `"github.com"`, `"/blob/"` and
`"/tree/"` are rewritten, and that relative targets resolve against the
literal `main` branch. -/
def resolveGitHubUrl (url owner repo : String) : Option String :=
  if "http".data.isPrefixOf url.data then
    if jsIncludes url "github.com" && jsIncludes url owner && jsIncludes url repo then
      some (jsReplaceFirst
        (jsReplaceFirst
          (jsReplaceFirst url "github.com" "raw.githubusercontent.com")
          "/blob/" "/")
        "/tree/" "/")
    else none
  else
    some ("https://raw.githubusercontent.com/" ++ owner ++ "/" ++ repo ++ "/main/" ++
      (if "./".data.isPrefixOf url.data then String.mk (url.data.drop 2) else url))

/-- The rewrite applied by `resolveGitHubUrl` to a GitHub-hosted absolute
URL, named for the amended claim C9. -/
def rewriteGitHubToRaw (url : String) : String :=
  jsReplaceFirst
    (jsReplaceFirst
      (jsReplaceFirst url "github.com" "raw.githubusercontent.com")
      "/blob/" "/")
    "/tree/" "/"

/-- Modelled from the amended claim C9: an absolute target (one starting
with `"http"`) is rewritten to raw form exactly when it contains
`"github.com"`, the owner string and the repo string as substrings, and is
discarded otherwise; every other target, after stripping a leading `"./"`,
resolves against the literal `main` branch. -/
def resolveGitHubUrlAmended (url owner repo : String) : Option String :=
  if "http".data.isPrefixOf url.data then
    if jsIncludes url "github.com" ∧ jsIncludes url owner ∧ jsIncludes url repo then
      some (rewriteGitHubToRaw url)
    else none
  else
    some ("https://raw.githubusercontent.com/" ++ owner ++ "/" ++ repo ++ "/main/" ++
      (if "./".data.isPrefixOf url.data then String.mk (url.data.drop 2) else url))

/-- The collaborators of the webhook resolver: the contents API (by path,
already decoded, `none` for failure or falsy content) and
`fetchUrlContent` (by resolved URL, `none` for a failed fetch). -/
structure Env where
  contents : String → Option String
  fetchUrl : String → Option String

/-- The mutable expansion state: the shared `visitedUrls` set and, for the
call-count specification, the ordered log of URLs passed to
`fetchUrlContent`. -/
structure ExpSt where
  visited : List String
  log : List String
deriving DecidableEq, Repr

/-- The separator with which `processLinkedContent` and
`loadContributingGuidelines` append a followed link's content. -/
def linkSep (lk : MdLink) : String :=
  "\n\n--- Content from " ++ lk.text ++ " (" ++ lk.url ++ ") ---\n"

/-- `processLinkedContent` from `app/api/webhook/route.ts`, with an
explicit recursion budget.  The source recurses at `depth + 1` and stops at
`depth >= 3`, so the recursion depth from an entry at depth `d` is at most
`3 - d`; the wrapper `processLinkedContent` passes `fuel = 3`, which covers
every depth, so the `fuel = 0` base case (returning the content unchanged,
exactly like the depth guard) is never the deciding branch. -/
def processLinkedContentF (env : Env) (owner repo : String) (fuel : Nat)
    (content : String) (depth : Nat) (st : ExpSt) : String × ExpSt :=
  match fuel with
  | 0 => (content, st)
  | f + 1 =>
    if 3 ≤ depth then (content, st)
    else
      (extractMarkdownLinks content).foldl
        (fun p lk =>
          match resolveGitHubUrl lk.url owner repo with
          | none => p
          | some url =>
            if url ∈ p.2.visited then p
            else
              let st1 : ExpSt := ⟨url :: p.2.visited, p.2.log ++ [url]⟩
              match env.fetchUrl url with
              | none => (p.1, st1)
              | some linked =>
                let nested := processLinkedContentF env owner repo f linked (depth + 1) st1
                (p.1 ++ linkSep lk ++ nested.1, nested.2))
        (content, st)

/-- `processLinkedContent` from `app/api/webhook/route.ts`. -/
def processLinkedContent (env : Env) (content owner repo : String)
    (depth : Nat) (st : ExpSt) : String × ExpSt :=
  processLinkedContentF env owner repo 3 content depth st

/-- `const maxDepth = 3` from `loadContributingGuidelines`. -/
def maxDepth : Nat := 3

/-- The candidate path list `altPaths` of the webhook resolver. -/
def altPaths : List String :=
  ["CONTRIBUTING.md", "contributing.md", ".github/CONTRIBUTING.md",
   "docs/CONTRIBUTING.md"]

/-- The root-lookup loop of `loadContributingGuidelines`: first path whose
content is truthy wins. -/
def tryPaths (env : Env) : List String → Option String
  | [] => none
  | p :: rest =>
    match env.contents p with
    | some c => if c = "" then tryPaths env rest else some c
    | none => tryPaths env rest

/-- The caching configuration of the webhook route
(`config.enableCaching`, `config.cacheTimeout`). -/
structure Config where
  enableCaching : Bool
  cacheTimeout : Nat

/-- Result of one webhook-side load: content (or `null`), expansion state,
and cache afterwards. -/
structure LoadResult where
  content : Option String
  st : ExpSt
  cache : Cache
deriving DecidableEq, Repr

/-- The part of `loadContributingGuidelines` after the cache check: root
lookup over `altPaths`, link expansion when `depth < maxDepth - 1` (the
loop duplicates the body of `processLinkedContent`, calling it at
`depth + 1` on each fetched link), and the cache store. -/
def loadContributingFresh (env : Env) (cfg : Config) (owner repo : String)
    (depth : Nat) (st : ExpSt) (cache : Cache) (now : Nat) (cacheKey : String) :
    LoadResult :=
  match tryPaths env altPaths with
  | none => ⟨none, st, cache⟩
  | some mainContent =>
    let expanded : String × ExpSt :=
      if depth < maxDepth - 1 then
        (extractMarkdownLinks mainContent).foldl
          (fun p lk =>
            match resolveGitHubUrl lk.url owner repo with
            | none => p
            | some url =>
              if url ∈ p.2.visited then p
              else
                let st1 : ExpSt := ⟨url :: p.2.visited, p.2.log ++ [url]⟩
                match env.fetchUrl url with
                | none => (p.1, st1)
                | some linked =>
                  let nested := processLinkedContent env linked owner repo (depth + 1) st1
                  (p.1 ++ linkSep lk ++ nested.1, nested.2))
          (mainContent, st)
      else (mainContent, st)
    ⟨some expanded.1, expanded.2,
      if cfg.enableCaching then cacheSet cache cacheKey ⟨expanded.1, now⟩ else cache⟩

/-- `loadContributingGuidelines` from `app/api/webhook/route.ts`: depth
guard, cache check keyed by `owner/repo:depth` with lazy TTL expiry, then
the fresh load. -/
def loadContributingGuidelines (env : Env) (cfg : Config) (owner repo : String)
    (depth : Nat) (st : ExpSt) (cache : Cache) (now : Nat) : LoadResult :=
  if maxDepth ≤ depth then ⟨none, st, cache⟩
  else
    let cacheKey := owner ++ "/" ++ repo ++ ":" ++ toString depth
    match (if cfg.enableCaching then cacheLookup cache cacheKey else none) with
    | some cached =>
      if now - cached.timestamp < cfg.cacheTimeout then ⟨some cached.content, st, cache⟩
      else loadContributingFresh env cfg owner repo depth st (cacheDelete cache cacheKey) now cacheKey
    | none => loadContributingFresh env cfg owner repo depth st cache now cacheKey

/-- The dedup invariant relating the expansion state before and after a
computation: the visited set only grows, the fetch log only gets new
entries, and every new entry was unvisited before and is visited after. -/
def StepOK (s t : ExpSt) : Prop :=
  (∀ u ∈ s.visited, u ∈ t.visited) ∧
  ∃ fresh, t.log = s.log ++ fresh ∧ fresh.Nodup ∧
    ∀ u ∈ fresh, u ∉ s.visited ∧ u ∈ t.visited

end Route

/-! ## Theorems -/

theorem parseGo_bounds : ∀ (lines : List (List Char)) (pos : Nat) (n : Int),
    (parseGo lines pos n).length ≤ lines.length ∧
    (∀ d ∈ parseGo lines pos n, pos < d.position) ∧
    ((parseGo lines pos n).map DiffLine.position).Pairwise (· < ·) := by
  intro lines
  induction lines with
  | nil => intro pos n; simp [parseGo]
  | cons line rest ih =>
    intro pos n
    by_cases h1 : "@@".data.isPrefixOf line = true
    · cases hm : findHunkNum line with
      | some c =>
        simp only [parseGo, h1, if_true, hm]
        obtain ⟨ha, hb, hc⟩ := ih pos ((c : Int) - 1)
        exact ⟨by simpa using Nat.le_succ_of_le ha, hb, hc⟩
      | none =>
        simp only [parseGo, h1, if_true, hm]
        obtain ⟨ha, hb, hc⟩ := ih pos n
        exact ⟨by simpa using Nat.le_succ_of_le ha, hb, hc⟩
    · by_cases h2 : ("+".data.isPrefixOf line && !("+++".data.isPrefixOf line)) = true
      · simp only [parseGo, h1, h2, if_true, if_false, Bool.false_eq_true]
        obtain ⟨ha, hb, hc⟩ := ih (pos + 1) (n + 1)
        refine ⟨by simpa using ha, ?_, ?_⟩
        · intro d hd
          rw [List.mem_cons] at hd
          rcases hd with rfl | hd
          · exact Nat.lt_succ_self pos
          · exact Nat.lt_trans (Nat.lt_succ_self pos) (hb d hd)
        · simp only [List.map_cons, List.pairwise_cons]
          refine ⟨?_, hc⟩
          intro x hx
          simp only [List.mem_map] at hx
          obtain ⟨d, hd, rfl⟩ := hx
          exact hb d hd
      · by_cases h3 : ("-".data.isPrefixOf line) = true
        · simp only [parseGo, h1, h2, h3, Bool.false_eq_true, if_false, Bool.not_true, if_true]
          obtain ⟨ha, hb, hc⟩ := ih (pos + 1) n
          exact ⟨by simpa using Nat.le_succ_of_le ha,
            fun d hd => Nat.lt_trans (Nat.lt_succ_self pos) (hb d hd), hc⟩
        · simp only [parseGo, h1, h2, h3, Bool.false_eq_true, if_false, Bool.not_false, if_true]
          obtain ⟨ha, hb, hc⟩ := ih (pos + 1) (n + 1)
          exact ⟨by simpa using Nat.le_succ_of_le ha,
            fun d hd => Nat.lt_trans (Nat.lt_succ_self pos) (hb d hd), hc⟩

theorem parseGoMjs_bounds : ∀ (lines : List (List Char)) (pos : Nat) (n : Int),
    (parseGoMjs lines pos n).length ≤ lines.length ∧
    (∀ d ∈ parseGoMjs lines pos n, pos ≤ d.position) ∧
    ((parseGoMjs lines pos n).map DiffLine.position).Pairwise (· < ·) := by
  intro lines
  induction lines with
  | nil => intro pos n; simp [parseGoMjs]
  | cons line rest ih =>
    intro pos n
    by_cases h1 : "@@".data.isPrefixOf line = true
    · cases hm : findPlusNum line with
      | some c =>
        simp only [parseGoMjs, h1, if_true, hm]
        obtain ⟨ha, hb, hc⟩ := ih (pos + 1) ((c : Int) - 1)
        exact ⟨by simpa using Nat.le_succ_of_le ha,
          fun d hd => Nat.le_of_succ_le (hb d hd), hc⟩
      | none =>
        simp only [parseGoMjs, h1, if_true, hm]
        obtain ⟨ha, hb, hc⟩ := ih (pos + 1) n
        exact ⟨by simpa using Nat.le_succ_of_le ha,
          fun d hd => Nat.le_of_succ_le (hb d hd), hc⟩
    · by_cases h2 : ("+".data.isPrefixOf line && !("+++".data.isPrefixOf line)) = true
      · simp only [parseGoMjs, h1, h2, if_true, if_false, Bool.false_eq_true]
        obtain ⟨ha, hb, hc⟩ := ih (pos + 1) (n + 1)
        refine ⟨by simpa using ha, ?_, ?_⟩
        · intro d hd
          rw [List.mem_cons] at hd
          rcases hd with rfl | hd
          · exact Nat.le_refl pos
          · exact Nat.le_of_succ_le (hb d hd)
        · simp only [List.map_cons, List.pairwise_cons]
          refine ⟨?_, hc⟩
          intro x hx
          simp only [List.mem_map] at hx
          obtain ⟨d, hd, rfl⟩ := hx
          exact hb d hd
      · by_cases h3 : (" ".data.isPrefixOf line) = true
        · simp only [parseGoMjs, h1, h2, h3, Bool.false_eq_true, if_false, if_true]
          obtain ⟨ha, hb, hc⟩ := ih (pos + 1) (n + 1)
          exact ⟨by simpa using Nat.le_succ_of_le ha,
            fun d hd => Nat.le_of_succ_le (hb d hd), hc⟩
        · simp only [parseGoMjs, h1, h2, h3, Bool.false_eq_true, if_false, if_true]
          obtain ⟨ha, hb, hc⟩ := ih (pos + 1) n
          exact ⟨by simpa using Nat.le_succ_of_le ha,
            fun d hd => Nat.le_of_succ_le (hb d hd), hc⟩

/-- Claim C8: for every patch string, both diff mappers emit at most as
many records as the patch has lines, and the `diffPosition` values of the
emitted records, in emission order, are strictly increasing. -/
theorem c8_mapper_bounds : ∀ patch : String,
    ((parseDiffForChangedLines patch).length ≤ (splitLines patch.data).length ∧
      ((parseDiffForChangedLines patch).map DiffLine.position).Pairwise (· < ·)) ∧
    ((parseDiffForChangedLinesMjs patch).length ≤ (splitLines patch.data).length ∧
      ((parseDiffForChangedLinesMjs patch).map DiffLine.position).Pairwise (· < ·)) := by
  intro patch
  constructor
  · obtain ⟨ha, _, hc⟩ := parseGo_bounds (splitLines patch.data) 0 0
    exact ⟨ha, hc⟩
  · unfold parseDiffForChangedLinesMjs
    by_cases h : patch.data.isEmpty = true
    · simp [h]
    · simp only [h, Bool.false_eq_true, if_false]
      obtain ⟨ha, _, hc⟩ := parseGoMjs_bounds (splitLines patch.data) 0 0
      exact ⟨ha, hc⟩

/-- Claim C1, counterexample: on the patch of end-to-end scenario 2 the
mapper emits one record with text `"line2"` and new-file line `2`, but its
diff position is `2`, not the claimed `3`: the hunk header is not counted
by the recorded position. -/
theorem c1_counterexample :
    parseDiffForChangedLines "@@ -1,2 +1,3 @@\n line1\n+line2\n line3" =
      [⟨"line2", 2, 2⟩] ∧
    parseDiffForChangedLines "@@ -1,2 +1,3 @@\n line1\n+line2\n line3" ≠
      [⟨"line2", 3, 2⟩] := by
  constructor
  · rfl
  · decide

/-- Claim C1 as amended: on the patch of end-to-end scenario 2 both diff
mappers emit exactly one record, with text `"line2"`, new-file line `2`,
and diff position `2` — the 1-based ordinal of the line among the lines
that follow the hunk header (the analyzer variant skips header lines before
incrementing its counter; the script variant counts the header but records
the counter value before its increment, so both yield `2`). -/
theorem c1_amended :
    parseDiffForChangedLines "@@ -1,2 +1,3 @@\n line1\n+line2\n line3" =
      [⟨"line2", 2, 2⟩] ∧
    parseDiffForChangedLinesMjs "@@ -1,2 +1,3 @@\n line1\n+line2\n line3" =
      [⟨"line2", 2, 2⟩] := by
  constructor
  · rfl
  · rfl

theorem foldl_pres {α β : Type} (P : β → Prop) (step : β → α → β)
    (h : ∀ b a, P b → P (step b a)) :
    ∀ (l : List α) (b : β), P b → P (l.foldl step b) := by
  intro l
  induction l with
  | nil => intro b hb; exact hb
  | cons a l ih => intro b hb; exact ih _ (h b a hb)

theorem codeViolationStep_inv (filename : String) (res : CodeResult)
    (violation : FileJudgment)
    (h : res.violationCount = res.details.length) :
    (codeViolationStep filename res violation).violationCount =
      (codeViolationStep filename res violation).details.length := by
  unfold codeViolationStep
  split
  · simp [h]
  · exact h

theorem codeFileStep_inv (res : CodeResult) (entry : PRFile × List RawJudgment)
    (h : res.violationCount = res.details.length) :
    (codeFileStep res entry).violationCount = (codeFileStep res entry).details.length := by
  unfold codeFileStep
  cases entry.1.patch with
  | none => exact h
  | some patch =>
    simp only
    split
    · exact h
    · split
      · exact h
      · exact foldl_pres (fun r => r.violationCount = r.details.length) _
          (fun r v hr => codeViolationStep_inv entry.1.filename r v hr) _ res h

theorem analyzePRCode_inv (files : List (PRFile × List RawJudgment)) :
    (analyzePRCode files).violationCount = (analyzePRCode files).details.length :=
  foldl_pres (fun r => r.violationCount = r.details.length) codeFileStep
    (fun r e hr => codeFileStep_inv r e hr) files _ rfl

/-- Claim C5: for every combination of description-judgment and per-file
judgment outputs, the `AnalysisResult` returned by `analyzePullRequest`
satisfies `violationsFound = true ↔ violationCount > 0 ↔ details ≠ []`.
The error branches of the source surface as particular judgment values
(`comment_needed := false` defaults, empty judgment lists), so the
universal quantification covers them. -/
theorem c5_result_invariant (desc : DescJudgment)
    (files : List (PRFile × List RawJudgment)) :
    ((analyzePullRequest desc (analyzePRCode files)).violationsFound = true ↔
      0 < (analyzePullRequest desc (analyzePRCode files)).violationCount) ∧
    (0 < (analyzePullRequest desc (analyzePRCode files)).violationCount ↔
      0 < (analyzePullRequest desc (analyzePRCode files)).details.length) := by
  have hinv := analyzePRCode_inv files
  set code := analyzePRCode files with hcode
  unfold analyzePullRequest
  cases hb : desc.comment_needed <;> by_cases hv : 0 < code.violationCount <;>
    (simp [hb, hv]; try omega)

/-- Claim C6: the annotation array posted by `createCheckRun` is exactly
the details with `line > 0` and `file ≠ "PR Description"`, in order, mapped
one-to-one to annotations with `path = file`, `start_line = end_line =
line`, level `"failure"` for severity `error` and `"warning"` for
`warning`, truncated to at most 50 entries regardless of how many
violations there are. -/
theorem c6_posted_annots (res : AnalysisResult) :
    createCheckRunPosted res =
      ((res.details.filter fun d => decide (0 < d.line ∧ d.file ≠ "PR Description")).map
        fun d =>
          ({ path := d.file, start_line := d.line, end_line := d.line,
             annotation_level :=
               if d.severity = Severity.error then "failure" else "warning",
             message := d.message,
             title := "Contributing Guideline Violation" } : Annot)).take 50 ∧
    (createCheckRunPosted res).length ≤ 50 := by
  constructor
  · unfold createCheckRunPosted createCheckRunAnnots
    have hf : res.details.filter checkRunFilter =
        res.details.filter fun d => decide (0 < d.line ∧ d.file ≠ "PR Description") := by
      apply List.filter_congr
      intro d _
      by_cases h1 : 0 < d.line <;> by_cases h2 : d.file = "PR Description" <;>
        simp [checkRunFilter, h1, h2]
    rw [hf]
    rfl
  · unfold createCheckRunPosted
    rw [List.length_take]
    exact Nat.min_le_left _ _

theorem idxAt_nil (i : Int) : idxAt [] i = none := by
  unfold idxAt
  split
  · rfl
  · exact List.get?_nil

theorem fold_codePush (filename : String) :
    ∀ (fa : List FileJudgment) (res : CodeResult),
      (fa.foldl (codeViolationStep filename) res).details =
        res.details ++ fa.filterMap (codePush filename) ∧
      (fa.foldl (codeViolationStep filename) res).violationCount =
        res.violationCount + (fa.filterMap (codePush filename)).length := by
  intro fa
  induction fa with
  | nil => intro res; simp
  | cons v rest ih =>
    intro res
    simp only [List.foldl_cons, List.filterMap_cons]
    cases hc : (truthyS v.comment && v.position.isSome) with
    | false =>
      have hstep : codeViolationStep filename res v = res := by
        unfold codeViolationStep
        simp [hc]
      have hpush : codePush filename v = none := by
        unfold codePush
        simp [hc]
      rw [hstep, hpush]
      exact ih res
    | true =>
      have hpush : codePush filename v =
          some { file := filename,
                 line := jsOrLine v.lineNumber v.position,
                 message := v.comment.getD "",
                 severity := Severity.error } := by
        unfold codePush
        simp [hc]
      have hstep : codeViolationStep filename res v =
          { violationCount := res.violationCount + 1,
            details := res.details ++
              [{ file := filename,
                 line := jsOrLine v.lineNumber v.position,
                 message := v.comment.getD "",
                 severity := Severity.error }] } := by
        unfold codeViolationStep
        simp [hc]
      rw [hstep, hpush]
      obtain ⟨ha, hb⟩ := ih
        { violationCount := res.violationCount + 1,
          details := res.details ++
            [{ file := filename,
               line := jsOrLine v.lineNumber v.position,
               message := v.comment.getD "",
               severity := Severity.error }] }
      constructor
      · rw [ha]
        simp
      · rw [hb]
        simp
        omega

theorem filterMap_of_filter {A B : Type} (g : A → Option B) (q : A → Bool) :
    ∀ l : List A, (l.filter q).filterMap g =
      l.filterMap (fun a => if q a then g a else none) := by
  intro l
  induction l with
  | nil => rfl
  | cons a l ih =>
    by_cases hq : q a = true
    · simp only [List.filter_cons, hq, if_true, List.filterMap_cons, ih]
    · simp only [List.filter_cons, hq, Bool.false_eq_true, if_false, List.filterMap_cons, ih]

theorem filterMap_of_map {A B C : Type} (g : B → Option C) (f : A → B) :
    ∀ l : List A, (l.map f).filterMap g = l.filterMap (fun a => g (f a)) := by
  intro l
  induction l with
  | nil => rfl
  | cons a l ih => simp only [List.map_cons, List.filterMap_cons, ih]

theorem filterMap_congr_fun {A B : Type} (f g : A → Option B)
    (h : ∀ a, f a = g a) : ∀ l : List A, l.filterMap f = l.filterMap g := by
  intro l
  induction l with
  | nil => rfl
  | cons a l ih => simp only [List.filterMap_cons, h a, ih]

theorem afc_push_spec (filename : String) (changedLines : List DiffLine)
    (raw : List RawJudgment) :
    (analyzeFileChanges changedLines raw).filterMap (codePush filename) =
      c7Spec filename changedLines raw := by
  unfold analyzeFileChanges c7Spec
  by_cases h0 : changedLines.length = 0
  · have hnil : changedLines = [] := List.length_eq_zero.mp h0
    subst hnil
    rw [if_pos h0, List.filterMap_nil]
    symm
    rw [List.filterMap_eq_nil_iff]
    intro v _
    rw [idxAt_nil]
  · rw [if_neg h0, filterMap_of_filter, filterMap_of_map]
    apply filterMap_congr_fun
    intro v
    cases hidx : idxAt changedLines v.position with
    | none => simp [hidx]
    | some d =>
      cases hcm : v.comment with
      | none => simp [hidx, hcm, codePush, truthyS]
      | some s =>
        by_cases hs : s = ""
        · simp [hidx, hcm, hs, codePush, truthyS]
        · simp [hidx, hcm, hs, codePush, truthyS, jsOrLine]

/-- Claim C7, counterexample: a per-file judgment whose position is a valid
index into the changed-lines sequence but whose comment is empty produces
no violation, contradicting the claim that the aggregator keeps exactly the
judgments with a valid index. -/
theorem c7_counterexample :
    ((analyzeFileChanges (parseDiffForChangedLines "@@ -1,1 +1,1 @@\n+x")
        [⟨0, some ""⟩]).foldl (codeViolationStep "f")
      { violationCount := 0, details := [] }).details = [] ∧
    (idxAt (parseDiffForChangedLines "@@ -1,1 +1,1 @@\n+x") 0).isSome = true := by
  constructor
  · rfl
  · rfl

/-- Claim C7 as amended: the per-file aggregation keeps exactly the
judgments whose position is a valid index into the file's changed-lines
sequence and whose comment is a present non-empty string; each kept
judgment becomes a severity-`error` violation whose line is the indexed
record's new-file line number, except that a line number of `0` (falsy in
JS) falls back to the record's diff position; every other judgment
contributes no violation and no count. -/
theorem c7_aggregation (filename : String) (changedLines : List DiffLine)
    (raw : List RawJudgment) :
    ((analyzeFileChanges changedLines raw).foldl (codeViolationStep filename)
        { violationCount := 0, details := [] }).details =
      c7Spec filename changedLines raw ∧
    ((analyzeFileChanges changedLines raw).foldl (codeViolationStep filename)
        { violationCount := 0, details := [] }).violationCount =
      (c7Spec filename changedLines raw).length := by
  obtain ⟨ha, hb⟩ := fold_codePush filename (analyzeFileChanges changedLines raw)
    { violationCount := 0, details := [] }
  rw [afc_push_spec] at ha hb
  constructor
  · rw [ha]
    simp
  · rw [hb]
    simp

/-- Claim C9, counterexample: with current repository `a/b`, the absolute
URL `https://github.com/alpha/beta/blob/main/doc.md` points at the foreign
repository `alpha/beta` (it does not even contain `github.com/a/b`), yet it
is not discarded: because `"a"` and `"b"` occur as substrings it is
rewritten to the raw URL of the foreign repository. -/
theorem c9_counterexample :
    Route.resolveGitHubUrl "https://github.com/alpha/beta/blob/main/doc.md" "a" "b" =
      some "https://raw.githubusercontent.com/alpha/beta/main/doc.md" ∧
    jsIncludes "https://github.com/alpha/beta/blob/main/doc.md" "github.com/a/b" = false := by
  constructor
  · rfl
  · rfl

/-- Claim C9 as amended: `resolveGitHubUrl` rewrites an absolute target
(one starting with `"http"`) to raw form exactly when it contains
`"github.com"`, the owner string, and the repo string as substrings
(rewriting the first occurrences of `"github.com"`, `"/blob/"` and
`"/tree/"`); it returns null for every other target starting with
`"http"`; and it resolves every other target, after stripping a leading
`"./"`, against the literal `main` branch of the current repository as a
`raw.githubusercontent.com` URL. -/
theorem c9_resolve_amended (url owner repo : String) :
    Route.resolveGitHubUrl url owner repo =
      Route.resolveGitHubUrlAmended url owner repo := by
  unfold Route.resolveGitHubUrl Route.resolveGitHubUrlAmended
  by_cases hp : "http".data.isPrefixOf url.data = true
  · rw [if_pos hp, if_pos hp]
    by_cases h1 : jsIncludes url "github.com" = true <;>
      by_cases h2 : jsIncludes url owner = true <;>
      by_cases h3 : jsIncludes url repo = true <;>
      simp [h1, h2, h3, Route.rewriteGitHubToRaw]
  · rw [if_neg hp, if_neg hp]

/-- Claim C10: for every PR body whose JS-trimmed text is non-empty and
which contains `aside` in any letter case, `analyzePRDescription` returns
`comment_needed = false` without calling the text-judgment collaborator,
and consequently `analyzePullRequest` records no description violation:
its details are exactly the code-analysis details. -/
theorem c10_aside_bypass (judge : DescJudgment) (prBody : String)
    (code : CodeResult)
    (h1 : jsTrim prBody ≠ "") (h2 : containsAsideKeyword prBody = true) :
    (analyzePRDescription judge prBody).result.comment_needed = false ∧
    (analyzePRDescription judge prBody).aiCalled = false ∧
    (analyzePullRequest (analyzePRDescription judge prBody).result code).details =
      (if 0 < code.violationCount then code.details else []) := by
  have hdesc : analyzePRDescription judge prBody =
      ⟨⟨false, "", "Skipped due to aside keyword"⟩, false⟩ := by
    unfold analyzePRDescription
    rw [if_neg h1, if_pos h2]
  refine ⟨by rw [hdesc], by rw [hdesc], ?_⟩
  rw [hdesc]
  unfold analyzePullRequest
  by_cases hv : 0 < code.violationCount <;> simp [hv]

/-- Witness for C10 at a concrete input: the body `"see the aside note"`
trims to itself (non-empty) and contains the keyword; the description
analysis is bypassed and only the one code violation survives. -/
theorem c10_witness :
    (jsTrim "see the aside note" ≠ "" ∧
      containsAsideKeyword "see the aside note" = true) ∧
    ((analyzePRDescription ⟨true, "c", "r"⟩ "see the aside note").result.comment_needed = false ∧
      (analyzePRDescription ⟨true, "c", "r"⟩ "see the aside note").aiCalled = false ∧
      (analyzePullRequest (analyzePRDescription ⟨true, "c", "r"⟩ "see the aside note").result
          ⟨1, [⟨"f", 2, "m", Severity.error⟩]⟩).details =
        (if 0 < (⟨1, [⟨"f", 2, "m", Severity.error⟩]⟩ : CodeResult).violationCount
         then (⟨1, [⟨"f", 2, "m", Severity.error⟩]⟩ : CodeResult).details else [])) :=
  ⟨⟨by decide, by decide⟩,
    c10_aside_bypass ⟨true, "c", "r"⟩ "see the aside note"
      ⟨1, [⟨"f", 2, "m", Severity.error⟩]⟩ (by decide) (by decide)⟩

theorem stepOK_refl (s : Route.ExpSt) : Route.StepOK s s :=
  ⟨fun _ hu => hu, [], by simp, List.nodup_nil, by simp⟩

theorem stepOK_trans {a b c : Route.ExpSt}
    (h1 : Route.StepOK a b) (h2 : Route.StepOK b c) : Route.StepOK a c := by
  obtain ⟨m1, t1, hl1, hn1, hf1⟩ := h1
  obtain ⟨m2, t2, hl2, hn2, hf2⟩ := h2
  refine ⟨fun u hu => m2 u (m1 u hu), t1 ++ t2, ?_, ?_, ?_⟩
  · rw [hl2, hl1, List.append_assoc]
  · rw [List.nodup_append]
    refine ⟨hn1, hn2, ?_⟩
    intro u hu1 hu2
    exact (hf2 u hu2).1 ((hf1 u hu1).2)
  · intro u hu
    rw [List.mem_append] at hu
    rcases hu with hu | hu
    · exact ⟨(hf1 u hu).1, m2 u (hf1 u hu).2⟩
    · exact ⟨fun hmem => (hf2 u hu).1 (m1 u hmem), (hf2 u hu).2⟩

theorem stepOK_add {st : Route.ExpSt} {url : String} (h : url ∉ st.visited) :
    Route.StepOK st ⟨url :: st.visited, st.log ++ [url]⟩ := by
  refine ⟨fun u hu => List.mem_cons_of_mem _ hu, [url], rfl, List.nodup_singleton url, ?_⟩
  intro u hu
  rw [List.mem_singleton] at hu
  subst hu
  exact ⟨h, List.mem_cons_self _ _⟩

theorem foldl_stepOK (step : String × Route.ExpSt → Route.MdLink → String × Route.ExpSt)
    (hstep : ∀ p lk, Route.StepOK p.2 (step p lk).2) :
    ∀ (links : List Route.MdLink) (p : String × Route.ExpSt),
      Route.StepOK p.2 (links.foldl step p).2 := by
  intro links
  induction links with
  | nil => intro p; exact stepOK_refl _
  | cons lk rest ih => intro p; exact stepOK_trans (hstep p lk) (ih (step p lk))

theorem plcF_succ (env : Route.Env) (ow rp : String) (f : Nat)
    (content : String) (depth : Nat) (st : Route.ExpSt) :
    Route.processLinkedContentF env ow rp (f + 1) content depth st =
      if 3 ≤ depth then (content, st)
      else
        (Route.extractMarkdownLinks content).foldl
          (fun p lk =>
            match Route.resolveGitHubUrl lk.url ow rp with
            | none => p
            | some url =>
              if url ∈ p.2.visited then p
              else
                let st1 : Route.ExpSt := ⟨url :: p.2.visited, p.2.log ++ [url]⟩
                match env.fetchUrl url with
                | none => (p.1, st1)
                | some linked =>
                  let nested := Route.processLinkedContentF env ow rp f linked (depth + 1) st1
                  (p.1 ++ Route.linkSep lk ++ nested.1, nested.2))
          (content, st) := rfl

theorem stepOK_plcF : ∀ (fuel : Nat) (env : Route.Env) (ow rp content : String)
    (depth : Nat) (st : Route.ExpSt),
    Route.StepOK st (Route.processLinkedContentF env ow rp fuel content depth st).2 := by
  intro fuel
  induction fuel with
  | zero => intro env ow rp content depth st; exact stepOK_refl st
  | succ f ih =>
    intro env ow rp content depth st
    rw [plcF_succ]
    by_cases hd : 3 ≤ depth
    · rw [if_pos hd]; exact stepOK_refl st
    · rw [if_neg hd]
      refine foldl_stepOK _ ?_ (Route.extractMarkdownLinks content) (content, st)
      intro p lk
      cases hres : Route.resolveGitHubUrl lk.url ow rp with
      | none => simp only [hres]; exact stepOK_refl _
      | some url =>
        by_cases hv : url ∈ p.2.visited
        · simp only [hres, if_pos hv]; exact stepOK_refl _
        · cases hf : env.fetchUrl url with
          | none => simp only [hres, if_neg hv, hf]; exact stepOK_add hv
          | some linked =>
            simp only [hres, if_neg hv, hf]
            exact stepOK_trans (stepOK_add hv) (ih env ow rp linked (depth + 1) _)

theorem stepOK_plc (env : Route.Env) (content ow rp : String) (depth : Nat)
    (st : Route.ExpSt) :
    Route.StepOK st (Route.processLinkedContent env content ow rp depth st).2 :=
  stepOK_plcF 3 env ow rp content depth st

theorem stepOK_fresh (env : Route.Env) (cfg : Route.Config) (ow rp : String)
    (depth : Nat) (st : Route.ExpSt) (cache : Cache) (now : Nat) (cacheKey : String) :
    Route.StepOK st (Route.loadContributingFresh env cfg ow rp depth st cache now cacheKey).st := by
  unfold Route.loadContributingFresh
  cases htp : Route.tryPaths env Route.altPaths with
  | none => simp only [htp]; exact stepOK_refl st
  | some mainContent =>
    simp only [htp]
    by_cases hd : depth < Route.maxDepth - 1
    · simp only [if_pos hd]
      refine foldl_stepOK _ ?_ (Route.extractMarkdownLinks mainContent) (mainContent, st)
      intro p lk
      cases hres : Route.resolveGitHubUrl lk.url ow rp with
      | none => simp only [hres]; exact stepOK_refl _
      | some url =>
        by_cases hv : url ∈ p.2.visited
        · simp only [hres, if_pos hv]; exact stepOK_refl _
        · cases hf : env.fetchUrl url with
          | none => simp only [hres, if_neg hv, hf]; exact stepOK_add hv
          | some linked =>
            simp only [hres, if_neg hv, hf]
            exact stepOK_trans (stepOK_add hv) (stepOK_plc env linked ow rp (depth + 1) _)
    · simp only [if_neg hd]; exact stepOK_refl st

theorem stepOK_load (env : Route.Env) (cfg : Route.Config) (ow rp : String)
    (depth : Nat) (st : Route.ExpSt) (cache : Cache) (now : Nat) :
    Route.StepOK st (Route.loadContributingGuidelines env cfg ow rp depth st cache now).st := by
  unfold Route.loadContributingGuidelines
  by_cases hd : Route.maxDepth ≤ depth
  · rw [if_pos hd]; exact stepOK_refl st
  · rw [if_neg hd]
    cases hcl : (if cfg.enableCaching then
        cacheLookup cache (ow ++ "/" ++ rp ++ ":" ++ toString depth) else none) with
    | none => simp only [hcl]; apply stepOK_fresh
    | some cached =>
      simp only [hcl]
      by_cases ht : now - cached.timestamp < cfg.cacheTimeout
      · rw [if_pos ht]; exact stepOK_refl st
      · rw [if_neg ht]; apply stepOK_fresh

/-- Claim C2: one resolution call of the webhook
`loadContributingGuidelines` (with its nested `processLinkedContent`
expansion) never fetches the same resolved URL twice: its `fetchUrlContent`
log has no duplicates, every fetched URL was added to the shared visited
set, and no URL of the initial visited set is ever fetched. -/
theorem c2_no_refetch (env : Route.Env) (cfg : Route.Config) (ow rp : String)
    (depth : Nat) (v0 : List String) (cache : Cache) (now : Nat) :
    (Route.loadContributingGuidelines env cfg ow rp depth ⟨v0, []⟩ cache now).st.log.Nodup ∧
    ∀ u ∈ (Route.loadContributingGuidelines env cfg ow rp depth ⟨v0, []⟩ cache now).st.log,
      u ∉ v0 ∧
      u ∈ (Route.loadContributingGuidelines env cfg ow rp depth ⟨v0, []⟩ cache now).st.visited := by
  obtain ⟨hmono, fresh, hlog, hnodup, hfresh⟩ :=
    stepOK_load env cfg ow rp depth ⟨v0, []⟩ cache now
  rw [List.nil_append] at hlog
  constructor
  · rw [hlog]; exact hnodup
  · intro u hu
    rw [hlog] at hu
    exact hfresh u hu

theorem plcF_depth_guard : ∀ (fuel : Nat) (env : Route.Env) (ow rp content : String)
    (depth : Nat) (st : Route.ExpSt), 3 ≤ depth →
    Route.processLinkedContentF env ow rp fuel content depth st = (content, st) := by
  intro fuel env ow rp content depth st h
  cases fuel with
  | zero => rfl
  | succ f => rw [plcF_succ, if_pos h]

/-- Claim C3: the recursive guideline expansion never recurses past
`maxDepth = 3`: `loadContributingGuidelines` returns `null` whenever
`depth ≥ 3`, and `processLinkedContent` returns its input content and state
unchanged whenever `depth ≥ 3`; both functions are total in this embedding,
so every expansion terminates. -/
theorem c3_depth_guard (env : Route.Env) (cfg : Route.Config)
    (ow rp content : String) (depth : Nat) (st : Route.ExpSt) (cache : Cache)
    (now : Nat) (h : 3 ≤ depth) :
    (Route.loadContributingGuidelines env cfg ow rp depth st cache now).content = none ∧
    Route.processLinkedContent env content ow rp depth st = (content, st) := by
  constructor
  · unfold Route.loadContributingGuidelines
    rw [if_pos (show Route.maxDepth ≤ depth from h)]
  · exact plcF_depth_guard 3 env ow rp content depth st h

/-- Witness for C3 at the concrete depth 3 with an empty environment. -/
theorem c3_witness :
    3 ≤ 3 ∧
    ((Route.loadContributingGuidelines ⟨fun _ => none, fun _ => none⟩ ⟨true, 300000⟩
        "o" "p" 3 ⟨[], []⟩ [] 0).content = none ∧
      Route.processLinkedContent ⟨fun _ => none, fun _ => none⟩ "c" "o" "p" 3 ⟨[], []⟩ =
        ("c", ⟨[], []⟩)) :=
  ⟨by decide,
    c3_depth_guard ⟨fun _ => none, fun _ => none⟩ ⟨true, 300000⟩ "o" "p" "c" 3 ⟨[], []⟩
      [] 0 (by decide)⟩

theorem loadPaths_calls_extend (env : Contributing.Env) (cache : Cache) (now : Nat)
    (cacheKey : String) :
    ∀ (paths calls : List String),
      ∃ t, (Contributing.loadPaths env cache now cacheKey paths calls).calls = calls ++ t ∧
        (paths = [] ∨ t ≠ []) := by
  intro paths
  induction paths with
  | nil => intro calls; exact ⟨[], by simp [Contributing.loadPaths], Or.inl rfl⟩
  | cons p rest ih =>
    intro calls
    unfold Contributing.loadPaths
    cases hc : env.contents p with
    | some c =>
      by_cases hce : c = ""
      · simp only [hc, if_pos hce]
        obtain ⟨t, ht, _⟩ := ih (calls ++ [p])
        exact ⟨[p] ++ t, by rw [ht, List.append_assoc], Or.inr (by simp)⟩
      · simp only [hc, if_neg hce]
        exact ⟨[p], rfl, Or.inr (by simp)⟩
    | none =>
      simp only [hc]
      obtain ⟨t, ht, _⟩ := ih (calls ++ [p])
      exact ⟨[p] ++ t, by rw [ht, List.append_assoc], Or.inr (by simp)⟩

/-- Claim C4: on a lookup that finds a cache entry, the action-side
`loadContributingGuidelines` returns the entry's content with no
content-fetch collaborator call when the entry's age `now - timestamp` is
below the TTL, and otherwise behaves exactly as a fresh load against the
cache with that entry deleted — a load that always makes at least one
collaborator call.  An entry whose age reaches the TTL is therefore never
returned: it is evicted on that lookup and the fetch proceeds. -/
theorem c4_cache_ttl (env : Contributing.Env) (cache : Cache) (now : Nat)
    (ow rp : String) (e : CacheEntry)
    (hlookup : cacheLookup cache (ow ++ "/" ++ rp) = some e) :
    Contributing.loadContributingGuidelines env cache now ow rp =
      (if now - e.timestamp < Contributing.CACHE_TIMEOUT
       then ⟨some e.content, cache, []⟩
       else Contributing.loadPaths env (cacheDelete cache (ow ++ "/" ++ rp)) now
         (ow ++ "/" ++ rp) Contributing.altPaths []) ∧
    (Contributing.loadPaths env (cacheDelete cache (ow ++ "/" ++ rp)) now
        (ow ++ "/" ++ rp) Contributing.altPaths []).calls ≠ [] := by
  constructor
  · unfold Contributing.loadContributingGuidelines
    simp only [hlookup]
  · obtain ⟨t, ht, hne⟩ := loadPaths_calls_extend env (cacheDelete cache (ow ++ "/" ++ rp))
      now (ow ++ "/" ++ rp) Contributing.altPaths []
    rw [ht]
    rcases hne with h | h
    · exact absurd h (by decide)
    · simpa using h

/-- Witness for C4 at a concrete stale entry: age `300000 - 0` reaches the
TTL, so the entry is evicted and the (failing) fresh load runs. -/
theorem c4_witness :
    cacheLookup [("o/p", (⟨"G", 0⟩ : CacheEntry))] ("o" ++ "/" ++ "p") = some ⟨"G", 0⟩ ∧
    (Contributing.loadContributingGuidelines ⟨fun _ => none⟩
        [("o/p", ⟨"G", 0⟩)] 300000 "o" "p" =
      (if 300000 - (⟨"G", 0⟩ : CacheEntry).timestamp < Contributing.CACHE_TIMEOUT
       then ⟨some (⟨"G", 0⟩ : CacheEntry).content, [("o/p", ⟨"G", 0⟩)], []⟩
       else Contributing.loadPaths ⟨fun _ => none⟩
         (cacheDelete [("o/p", ⟨"G", 0⟩)] ("o" ++ "/" ++ "p")) 300000
         ("o" ++ "/" ++ "p") Contributing.altPaths []) ∧
     (Contributing.loadPaths ⟨fun _ => none⟩
        (cacheDelete [("o/p", ⟨"G", 0⟩)] ("o" ++ "/" ++ "p")) 300000
        ("o" ++ "/" ++ "p") Contributing.altPaths []).calls ≠ []) :=
  ⟨by decide,
    c4_cache_ttl ⟨fun _ => none⟩ [("o/p", ⟨"G", 0⟩)] 300000 "o" "p" ⟨"G", 0⟩ (by decide)⟩
